import Mathlib

/-!
Verification of the beans-mcp server core against its specification.

The development shallowly embeds the TypeScript sources:
* `src/utils.ts` — `isPathWithinRoot` (built on Node's posix `path.resolve`,
  `path.relative`, `path.isAbsolute`, modelled here at the character level);
* `src/server/backend.ts` — `BeansCliBackend`: `getSafeEnv`,
  `resolveBeanFilePath`, the sandboxed file operations
  (`readBeanFile` / `editBeanFile` / `createBeanFile` / `deleteBeanFile`)
  over an explicit file-system state, and `readOutputLog`'s ring buffer;
* `src/server/BeansMcpServer.ts` — `deleteHandler` / `getBeanById` and
  `resolveWorkspaceFromRoots`;
* the `update` mutation-input construction of `BeansCliBackend.update`;
* `src/internal/queryHelpers.ts` — `sortBeans` (this file is absent from the
  sources, so it is modelled from the spec, as marked on its definitions).

Strings are manipulated through their character lists (`String.data`), which
in this Lean version is the definition of `String`, so that all definitions
are executable and provable by computation.
-/

namespace Beans

/-! ### Character-level string helpers (model of JS string primitives) -/

/-- Model of JS `s.startsWith(p)`: `p`'s characters are a prefix of `s`'s. -/
def strStartsWith (s p : String) : Bool :=
  p.data.isPrefixOf s.data

/-- JS whitespace test used by `String.prototype.trim` (common cases). -/
def isJsSpace (c : Char) : Bool :=
  c = ' ' || c = '\t' || c = '\n' || c = '\r'

/-- Model of JS `s.trim()` on character lists. -/
def jsTrimL (l : List Char) : List Char :=
  ((l.dropWhile isJsSpace).reverse.dropWhile isJsSpace).reverse

/-- Model of `replace(/^\/+/, '')`: drop every leading `'/'`. -/
def stripSlashes (l : List Char) : List Char :=
  l.dropWhile (· = '/')

/-! ### Node posix path model

A path string is split on `'/'` into components (character lists); resolution
normalises the component list; `relative` compares two resolved component
lists.  This models `path.resolve`, `path.relative` and `path.isAbsolute`
from `node:path` as used by `src/utils.ts` and `src/server/backend.ts`. -/

/-- Split a character list on `'/'` (model of splitting a path string). -/
def splitSlashL : List Char → List (List Char)
  | [] => [[]]
  | c :: cs =>
    if c = '/' then [] :: splitSlashL cs
    else
      match splitSlashL cs with
      | [] => [[c]]
      | h :: t => (c :: h) :: t

/-- One step of path normalisation: skip empty and `"."` components, let
`".."` pop the previous component (clamped at the root), keep the rest. -/
def normStep (acc : List (List Char)) (c : List Char) : List (List Char) :=
  if c = [] ∨ c = ['.'] then acc
  else if c = ['.', '.'] then acc.dropLast
  else acc ++ [c]

/-- Normalise the components of an absolute path (model of the normalisation
performed by `path.resolve` once the argument list is rooted). -/
def normComps (l : List (List Char)) : List (List Char) :=
  l.foldl normStep []

/-- Model of `path.isAbsolute` (posix): the string starts with `'/'`. -/
def isAbsolute (p : String) : Bool :=
  strStartsWith p "/"

/-- Components of `path.resolve(p)` with current working directory `cwd`:
an absolute `p` is normalised on its own, a relative `p` is joined to `cwd`
(`cwd + "/" + p` splits into the concatenation of both component lists). -/
def resolveComps (cwd p : String) : List (List Char) :=
  if isAbsolute p then normComps (splitSlashL p.data)
  else normComps (splitSlashL cwd.data ++ splitSlashL p.data)

/-- Components of `path.resolve(base, p)` with current working directory
`cwd`: arguments are consumed right to left until an absolute one roots the
path, `cwd` rooting it as a last resort. -/
def resolve2Comps (cwd base p : String) : List (List Char) :=
  if isAbsolute p then normComps (splitSlashL p.data)
  else if isAbsolute base then normComps (splitSlashL base.data ++ splitSlashL p.data)
  else normComps (splitSlashL cwd.data ++ splitSlashL base.data ++ splitSlashL p.data)

/-- Join components with `'/'` separators (no leading slash). -/
def joinSlashL : List (List Char) → List Char
  | [] => []
  | [a] => a
  | a :: b :: t => a ++ '/' :: joinSlashL (b :: t)

/-- Render resolved (absolute) components back to a path string. -/
def joinComps (comps : List (List Char)) : String :=
  String.mk ('/' :: joinSlashL comps)

/-- Model of `path.relative(from, to)` on already-resolved component lists:
drop the common prefix, replace what remains of `from` by `".."` steps. -/
def relComps : List (List Char) → List (List Char) → List (List Char)
  | [], ts => ts
  | _f :: fs, [] => List.replicate (fs.length + 1) ['.', '.']
  | f :: fs, t :: ts =>
    if f = t then relComps fs ts
    else List.replicate (fs.length + 1) ['.', '.'] ++ t :: ts

/-- `isPathWithinRoot` from `src/utils.ts`: resolve both paths, take
`path.relative` of the results, and require it to be non-empty, not to start
with `".."`, and not to be absolute.  `cwd` is the process working directory
used by `path.resolve` for relative inputs. -/
def isPathWithinRoot (cwd root target : String) : Bool :=
  let rel := joinSlashL (relComps (resolveComps cwd root) (resolveComps cwd target))
  !rel.isEmpty && !(['.', '.'].isPrefixOf rel) && !(['/'].isPrefixOf rel)

/-! ### The sandboxed file operations of `BeansCliBackend`

The backend's construction parameters are `workspaceRoot` (written `wr`) and
the ambient process working directory `cwd` consumed by `path.resolve`; the
CLI path plays no role in the file operations.  File-system effects are made
explicit: a state carries the files (an association list from absolute path
to content), the created directories, and a log of every file-system access
performed, so that "fails before any filesystem access" is provable. -/

/-- A single file-system access performed by an operation. -/
inductive FsAccess where
  | read (p : String)
  | write (p : String)
  | mkdir (p : String)
  | remove (p : String)
deriving DecidableEq, Repr

/-- Explicit file-system state threaded through the backend operations. -/
structure FsState where
  files : List (String × String)
  dirs : List String
  log : List FsAccess
deriving DecidableEq, Repr

/-- `BeansCliBackend.getBeansRoot`: `resolve(this.workspaceRoot, ".beans")`. -/
def getBeansRoot (cwd wr : String) : String :=
  joinComps (resolve2Comps cwd wr ".beans")

/-- `BeansCliBackend.resolveBeanFilePath`, returning the resolved target as
components: trim, strip leading slashes, reject an empty remainder, resolve
against the `.beans` root, and reject targets outside it (`isPathWithinRoot`)
— all before any file-system access. -/
def resolveBeanFileComps (cwd wr rel : String) : Except String (List (List Char)) :=
  let cleanedL := stripSlashes (jsTrimL rel.data)
  if cleanedL.isEmpty then .error "Path is required"
  else
    let beansRoot := getBeansRoot cwd wr
    let target := resolve2Comps cwd beansRoot (String.mk cleanedL)
    if isPathWithinRoot cwd beansRoot (joinComps target) then .ok target
    else .error "Path must stay within .beans directory"

/-- `BeansCliBackend.resolveBeanFilePath` as in the source: the resolved
absolute path string. -/
def resolveBeanFilePath (cwd wr rel : String) : Except String String :=
  (resolveBeanFileComps cwd wr rel).map joinComps

/-- Model of `mkdir(d, { recursive: true })`: records the directory and logs
the access. -/
def mkdirRecursive (st : FsState) (d : String) : FsState :=
  { st with dirs := st.dirs ++ [d], log := st.log ++ [FsAccess.mkdir d] }

/-- Model of `writeFile` with flag `"wx"` (`exclusive = true`) or `"w"`
(`exclusive = false`): an exclusive write fails with `EEXIST` when the file
already exists and leaves the files unchanged; otherwise the content is
replaced.  The attempted access is logged either way. -/
def writeFileFlag (st : FsState) (p content : String) (exclusive : Bool) :
    FsState × Except String Unit :=
  let st1 := { st with log := st.log ++ [FsAccess.write p] }
  if exclusive && (st.files.lookup p).isSome then
    (st1, .error ("EEXIST: " ++ p))
  else
    ({ st1 with files := (p, content) :: st1.files.filter (fun kv => !(kv.1 == p)) }, .ok ())

/-- `BeansCliBackend.readBeanFile`: resolve (may throw first), then
`readFile` — which fails with `ENOENT` when the file does not exist. -/
def readBeanFile (cwd wr : String) (st : FsState) (rel : String) :
    FsState × Except String (String × String) :=
  match resolveBeanFileComps cwd wr rel with
  | .error e => (st, .error e)
  | .ok comps =>
    let p := joinComps comps
    let st1 := { st with log := st.log ++ [FsAccess.read p] }
    match st.files.lookup p with
    | some content => (st1, .ok (p, content))
    | none => (st1, .error ("ENOENT: " ++ p))

/-- `BeansCliBackend.editBeanFile`: resolve (may throw first), create the
parent directory, write unconditionally, and report the byte count. -/
def editBeanFile (cwd wr : String) (st : FsState) (rel content : String) :
    FsState × Except String (String × Nat) :=
  match resolveBeanFileComps cwd wr rel with
  | .error e => (st, .error e)
  | .ok comps =>
    let p := joinComps comps
    let st1 := mkdirRecursive st (joinComps comps.dropLast)
    match writeFileFlag st1 p content false with
    | (st2, .ok _) => (st2, .ok (p, content.utf8ByteSize))
    | (st2, .error e) => (st2, .error e)

/-- `BeansCliBackend.createBeanFile`: resolve (may throw first), create the
parent directory, then write with flag `"w"` when `options?.overwrite` is
truthy and `"wx"` (exclusive create) otherwise. -/
def createBeanFile (cwd wr : String) (st : FsState) (rel content : String)
    (overwrite : Option Bool) : FsState × Except String (String × Nat × Bool) :=
  match resolveBeanFileComps cwd wr rel with
  | .error e => (st, .error e)
  | .ok comps =>
    let p := joinComps comps
    let st1 := mkdirRecursive st (joinComps comps.dropLast)
    match writeFileFlag st1 p content (!(overwrite == some true)) with
    | (st2, .ok _) => (st2, .ok (p, content.utf8ByteSize, true))
    | (st2, .error e) => (st2, .error e)

/-- `BeansCliBackend.deleteBeanFile`: resolve (may throw first), then
`rm(path, { force: false })` — which fails when the target does not exist. -/
def deleteBeanFile (cwd wr : String) (st : FsState) (rel : String) :
    FsState × Except String (String × Bool) :=
  match resolveBeanFileComps cwd wr rel with
  | .error e => (st, .error e)
  | .ok comps =>
    let p := joinComps comps
    let st1 := { st with log := st.log ++ [FsAccess.remove p] }
    if (st.files.lookup p).isSome then
      ({ st1 with files := st1.files.filter (fun kv => !(kv.1 == p)) }, .ok (p, true))
    else (st1, .error ("ENOENT: " ++ p))

/-! ### `BeansCliBackend.getSafeEnv` -/

/-- The allow-list of inherited environment variables from
`BeansCliBackend.getSafeEnv`. -/
def envWhitelist : List String :=
  ["PATH", "HOME", "USER", "LANG", "LC_ALL", "LC_CTYPE", "SHELL"]

/-- `BeansCliBackend.getSafeEnv`: copy each allow-listed variable whose value
is truthy (JS: a non-empty string), then copy every variable whose name
starts with `BEANS_`.  The environment is an association list (first binding
wins on lookup). -/
def getSafeEnv (env : List (String × String)) : List (String × String) :=
  (envWhitelist.filterMap fun k =>
    match env.lookup k with
    | some v => if v = "" then none else some (k, v)
    | none => none) ++
  env.filter (fun kv => strStartsWith kv.1 "BEANS_")

/-! ### `BeansCliBackend.readOutputLog` -/

/-- One iteration of the `for await (const line of rl)` loop: skip empty
lines, push the line, and drop the oldest line when the buffer exceeds
`maxLines`. -/
def ringStep (maxLines : Nat) (buf : List String) (line : String) : List String :=
  if line = "" then buf
  else
    let b := buf ++ [line]
    if maxLines < b.length then b.drop 1 else b

/-- The ring buffer after reading every line of the log. -/
def ringLines (lines : List String) (maxLines : Nat) : List String :=
  lines.foldl (ringStep maxLines) []

/-- `options?.lines && options.lines > 0 ? options.lines : 500`. -/
def effectiveMaxLines (opt : Option Int) : Nat :=
  match opt with
  | some n => if 0 < n then n.toNat else 500
  | none => 500

/-- Result of `BeansCliBackend.readOutputLog` (the path field, which only
echoes the configured log location, is omitted). -/
structure LogResult where
  content : String
  linesReturned : Nat
deriving DecidableEq, Repr

/-- `BeansCliBackend.readOutputLog` on the physical lines of the log file:
ring buffer of the last `maxLines` non-empty lines, joined with `'\n'`,
plus the number of lines returned. -/
def readOutputLog (lines : List String) (opt : Option Int) : LogResult :=
  let rb := ringLines lines (effectiveMaxLines opt)
  { content := String.intercalate "\n" rb, linesReturned := rb.length }

/-! ### Records and the delete handler (`BeansMcpServer.ts`) -/

/-- `BeanRecord` from `src/types.ts`. -/
structure Bean where
  id : String
  slug : String
  path : String
  title : String
  body : String
  status : String
  type' : String
  priority : Option String := none
  tags : Option (List String) := none
  parentId : Option String := none
  blockingIds : Option (List String) := none
  blockedByIds : Option (List String) := none
  createdAt : Option String := none
  updatedAt : Option String := none
  etag : Option String := none
deriving DecidableEq, Repr

/-- Acknowledgment returned by `BeansCliBackend.delete`. -/
structure DeleteAck where
  deleted : Bool
  beanId : String
deriving DecidableEq, Repr

/-- Test fixture: a `todo` bean. -/
def beanTodo : Bean :=
  { id := "b1", slug := "b1", path := "p", title := "t", body := "", status := "todo", type' := "task" }

/-- Test fixture: a `draft` bean. -/
def beanDraft : Bean :=
  { id := "b2", slug := "b2", path := "p", title := "t", body := "", status := "draft", type' := "task" }

/-- Test fixture: first of two tie-equal beans. -/
def beanSameA : Bean :=
  { id := "a1", slug := "a1", path := "p", title := "Same", body := "", status := "todo", type' := "task" }

/-- Test fixture: second of two tie-equal beans. -/
def beanSameB : Bean :=
  { id := "a2", slug := "a2", path := "p", title := "Same", body := "", status := "todo", type' := "task" }

/-- `getBeanById` over a list snapshot: find the first record with the given
id; a missing id raises `Bean not found`, re-wrapped by the surrounding
`catch` into `Failed to fetch bean ...`. -/
def getBeanById (beans : List Bean) (beanId : String) : Except String Bean :=
  match beans.find? (fun b => b.id == beanId) with
  | some b => .ok b
  | none =>
    .error ("Failed to fetch bean " ++ beanId ++ ": Bean not found: " ++ beanId)

/-- The refusal message of `deleteHandler`. -/
def deleteRefusalMsg : String :=
  "Only draft and scrapped beans are deletable unless force=true"

/-- `deleteHandler`: fetch the bean, refuse unless `force` or the status is
`draft` or `scrapped`, otherwise return the backend's acknowledgment
(`BeansCliBackend.delete` returns `{ deleted: true, beanId }`). -/
def deleteHandler (beans : List Bean) (beanId : String) (force : Bool) :
    Except String DeleteAck :=
  match getBeanById beans beanId with
  | .error e => .error e
  | .ok bean =>
    if !force && !(bean.status == "draft") && !(bean.status == "scrapped") then
      .error deleteRefusalMsg
    else .ok { deleted := true, beanId := beanId }

/-! ### `BeansCliBackend.update`: the mutation input -/

/-- The `updates` argument of `BeansCliBackend.update`.  `clearParent` is a
JS `boolean | undefined`; only `some true` is truthy. -/
structure UpdateArgs where
  status : Option String := none
  type' : Option String := none
  priority : Option String := none
  parent : Option String := none
  clearParent : Option Bool := none
  blocking : Option (List String) := none
  blockedBy : Option (List String) := none
deriving DecidableEq, Repr

/-- The `input` object sent with the update mutation (absent keys are
`none`). -/
structure UpdateInput where
  status : Option String := none
  type' : Option String := none
  priority : Option String := none
  parent : Option String := none
  addBlocking : Option (List String) := none
  addBlockedBy : Option (List String) := none
deriving DecidableEq, Repr

/-- The construction of `updateInput` inside `BeansCliBackend.update`:
`parent` is set from `updates.parent` when defined, else to `''` when
`clearParent` is truthy; `blocking`/`blockedBy` become `addBlocking` /
`addBlockedBy`. -/
def buildUpdateInput (u : UpdateArgs) : UpdateInput :=
  { status := u.status
    type' := u.type'
    priority := u.priority
    parent :=
      match u.parent with
      | some p => some p
      | none => if u.clearParent == some true then some "" else none
    addBlocking := u.blocking
    addBlockedBy := u.blockedBy }

/-! ### `resolveWorkspaceFromRoots` -/

/-- Model of `new URL(uri).pathname` for `file://` URIs: drop the scheme and
authority (everything up to the next `'/'`) and keep the rooted path. -/
def urlPathname (uri : String) : String :=
  let rest := uri.data.drop 7
  match splitSlashL rest with
  | [] => ""
  | _ :: tailParts => String.mk ('/' :: joinSlashL tailParts)

/-- `resolveWorkspaceFromRoots`: the `listRoots` round trip either throws
(capability unsupported — the `catch` yields `null`) or returns the declared
root URIs; the first URI starting with `file://` is converted to its local
path, and `null` is returned when there is none. -/
def resolveWorkspaceFromRoots (rootsResult : Except Unit (List String)) :
    Option String :=
  match rootsResult with
  | .error _ => none
  | .ok roots =>
    match roots.find? (fun uri => strStartsWith uri "file://") with
    | some uri => some (urlPathname uri)
    | none => none

/-! ### `sortBeans` (`src/internal/queryHelpers.ts`)

`queryHelpers.ts` is not among the available sources (only its callers and
tests are), so the sort is modelled from the spec, §4.3. -/

/-- Modelled from the spec: the fixed status-weight table of the
`status-priority-type-title` mode — active statuses first, terminal statuses
last, unrecognised statuses sentinel-last (weight 99). -/
def statusWeight (s : String) : Nat :=
  if s = "in-progress" then 0
  else if s = "todo" then 1
  else if s = "draft" then 2
  else if s = "completed" then 3
  else if s = "scrapped" then 4
  else 99

/-- Modelled from the spec: the fixed priority-weight table
(critical > high > normal/default > low, unrecognised sentinel-last); a
missing priority gets the default (normal) weight. -/
def priorityWeight (p : Option String) : Nat :=
  match p with
  | none => 2
  | some s =>
    if s = "critical" then 0
    else if s = "high" then 1
    else if s = "normal" then 2
    else if s = "low" then 3
    else 99

/-- Modelled from the spec: the fixed type-weight table (unrecognised types
sentinel-last). -/
def typeWeight (t : String) : Nat :=
  if t = "feature" then 0
  else if t = "task" then 1
  else if t = "bug" then 2
  else 99

/-- Modelled from the spec: the lexicographic sort key of the
`status-priority-type-title` mode — status weight, then priority weight,
then type weight, then case-sensitive title. -/
def statusModeKey (b : Bean) : Lex (Nat × Lex (Nat × Lex (Nat × String))) :=
  toLex (statusWeight b.status,
    toLex (priorityWeight b.priority, toLex (typeWeight b.type', b.title)))

/-- Modelled from the spec: the sort key of the `updated` / `created` modes
— records with a timestamp (descending, hence order-dual) before records
without one. -/
def timestampKey (t : Option String) : Lex (Nat × OrderDual String) :=
  match t with
  | some s => toLex (0, OrderDual.toDual s)
  | none => toLex (1, OrderDual.toDual "")

/-- The four sort modes of `SortMode` from `src/types.ts`. -/
inductive SortMode where
  | statusPriorityTypeTitle
  | updated
  | created
  | id
deriving DecidableEq, Repr

/-- Modelled from the spec: a stable sort of the records by an order key
(ties keep insertion order). -/
def sortByKey {K : Type} [LinearOrder K] (k : Bean → K) (l : List Bean) :
    List Bean :=
  l.mergeSort (fun a b => decide (k a ≤ k b))

/-- Modelled from the spec: `sortBeans` — a stable sort under the selected
mode's tie-break chain. -/
def sortBeans (beans : List Bean) (mode : SortMode) : List Bean :=
  match mode with
  | .statusPriorityTypeTitle => sortByKey statusModeKey beans
  | .updated => sortByKey (fun b => timestampKey b.updatedAt) beans
  | .created => sortByKey (fun b => timestampKey b.createdAt) beans
  | .id => sortByKey (fun b => b.id) beans

/-- Two records are tie-equal under a mode when every tie-break key of that
mode compares them equal. -/
def tieEq (mode : SortMode) (a b : Bean) : Prop :=
  match mode with
  | .statusPriorityTypeTitle =>
    statusWeight a.status = statusWeight b.status ∧
    priorityWeight a.priority = priorityWeight b.priority ∧
    typeWeight a.type' = typeWeight b.type' ∧ a.title = b.title
  | .updated => timestampKey a.updatedAt = timestampKey b.updatedAt
  | .created => timestampKey a.createdAt = timestampKey b.createdAt
  | .id => a.id = b.id

/-! ### Lemmas about the path model -/

theorem splitSlashL_ne_nil (l : List Char) : splitSlashL l ≠ [] := by
  cases l with
  | nil => simp [splitSlashL]
  | cons c cs =>
    simp only [splitSlashL]
    split
    · simp
    · split <;> simp

theorem splitSlashL_append (as bs : List Char) :
    splitSlashL (as ++ '/' :: bs) = splitSlashL as ++ splitSlashL bs := by
  induction as with
  | nil => simp [splitSlashL]
  | cons c cs ih =>
    by_cases hc : c = '/'
    · subst hc
      simp [splitSlashL, ih]
    · cases h : splitSlashL cs with
      | nil => exact absurd h (splitSlashL_ne_nil cs)
      | cons hd t =>
        simp only [List.cons_append, splitSlashL, if_neg hc, List.append_eq, ih, h]

theorem splitSlashL_no_slash {l : List Char} (h : ¬ '/' ∈ l) :
    splitSlashL l = [l] := by
  induction l with
  | nil => rfl
  | cons c cs ih =>
    simp only [List.mem_cons, not_or] at h
    have hc : ¬ c = '/' := fun hcc => h.1 hcc.symm
    simp [splitSlashL, if_neg hc, ih h.2]

theorem normComps_append_regular (l : List (List Char)) {c : List Char}
    (h0 : c ≠ []) (h1 : c ≠ ['.']) (h2 : c ≠ ['.', '.']) :
    normComps (l ++ [c]) = normComps l ++ [c] := by
  unfold normComps
  rw [List.foldl_append]
  simp [normStep, h0, h1, h2]

theorem relComps_append (R S : List (List Char)) :
    relComps R (R ++ S) = S := by
  induction R with
  | nil => rfl
  | cons f fs ih => simpa [relComps] using ih

theorem isPrefixOf_append_self : ∀ (l z : List Char),
    (l.isPrefixOf (l ++ z)) = true := by
  intro l
  induction l with
  | nil => intro z; simp [List.isPrefixOf]
  | cons c t ih => intro z; simp [List.isPrefixOf, ih]

theorem joinSlashL_cons (a : List Char) (rest : List (List Char)) :
    ∃ z, joinSlashL (a :: rest) = a ++ z := by
  cases rest with
  | nil => exact ⟨[], by simp [joinSlashL]⟩
  | cons b t => exact ⟨'/' :: joinSlashL (b :: t), rfl⟩

theorem data_slash_append (r x : String) :
    (r ++ "/" ++ x).data = r.data ++ '/' :: x.data := by
  rw [String.data_append, String.data_append]
  simp

theorem isAbsolute_slash_append (r x : String) (hr : r.data ≠ []) :
    isAbsolute (r ++ "/" ++ x) = isAbsolute r := by
  unfold isAbsolute strStartsWith
  rw [data_slash_append]
  cases hr' : r.data with
  | nil => exact absurd hr' hr
  | cons c t => simp [List.isPrefixOf]

theorem resolveComps_slash_append (cwd r x : String)
    (hr : r.data ≠ []) (hx0 : x.data ≠ []) (hx1 : x.data ≠ ['.'])
    (hx2 : x.data ≠ ['.', '.']) (hxs : ¬ '/' ∈ x.data) :
    resolveComps cwd (r ++ "/" ++ x) = resolveComps cwd r ++ [x.data] := by
  have hsplit : splitSlashL (r ++ "/" ++ x).data = splitSlashL r.data ++ [x.data] := by
    rw [data_slash_append, splitSlashL_append, splitSlashL_no_slash hxs]
  unfold resolveComps
  rw [isAbsolute_slash_append r x hr, hsplit]
  by_cases ha : isAbsolute r = true
  · rw [if_pos ha, if_pos ha, normComps_append_regular _ hx0 hx1 hx2]
  · rw [if_neg ha, if_neg ha, ← List.append_assoc,
      normComps_append_regular _ hx0 hx1 hx2]

theorem no_slash_no_sep_start {l : List Char} (h0 : l ≠ [])
    (hs : ¬ '/' ∈ l) : (['/'].isPrefixOf l) = false := by
  cases l with
  | nil => exact absurd rfl h0
  | cons c t =>
    simp only [List.mem_cons, not_or] at hs
    simp [List.isPrefixOf, beq_eq_false_iff_ne, hs.1]

theorem relComps_not_extension {F : List (List Char)} :
    ∀ {T : List (List Char)},
      (joinSlashL (relComps F T)).isEmpty = false →
      (['.', '.'].isPrefixOf (joinSlashL (relComps F T))) = false →
      ∃ S, S ≠ [] ∧ T = F ++ S := by
  induction F with
  | nil =>
    intro T hne _
    refine ⟨T, ?_, rfl⟩
    intro hT
    rw [hT] at hne
    simp [relComps, joinSlashL] at hne
  | cons f fs ih =>
    intro T hne hdd
    cases T with
    | nil =>
      exfalso
      rw [show relComps (f :: fs) [] = List.replicate (fs.length + 1) ['.', '.'] from rfl,
        List.replicate_succ] at hdd
      obtain ⟨z, hz⟩ := joinSlashL_cons ['.', '.'] (List.replicate fs.length ['.', '.'])
      rw [hz] at hdd
      rw [isPrefixOf_append_self] at hdd
      exact Bool.true_eq_false.mp hdd
    | cons t ts =>
      by_cases hft : f = t
      · subst hft
        rw [show relComps (f :: fs) (f :: ts) = relComps fs ts by simp [relComps]] at hne hdd
        obtain ⟨S, hS, hts⟩ := ih hne hdd
        exact ⟨S, hS, by rw [hts]; rfl⟩
      · exfalso
        rw [show relComps (f :: fs) (t :: ts) =
              List.replicate (fs.length + 1) ['.', '.'] ++ t :: ts from by
            simp [relComps, hft],
          List.replicate_succ, List.cons_append] at hdd
        obtain ⟨z, hz⟩ := joinSlashL_cons ['.', '.'] _
        rw [hz] at hdd
        rw [isPrefixOf_append_self] at hdd
        exact Bool.true_eq_false.mp hdd

/-! ### Claim theorems -/

/-- Claim C2 (amended): `isPathWithinRoot` is irreflexive (`root` is not
within itself); appending a single non-empty component that does not start
with `".."`, is not `"."` and contains no separator to a non-empty root
yields a path within it (as the claim states, but restricted to components
not starting with `".."` — see the counterexample); and whenever
`isPathWithinRoot` accepts, the resolved target strictly extends the
resolved root, so any `".."`-escape above the root is rejected. -/
theorem isPathWithinRoot_spec :
    (∀ cwd p, isPathWithinRoot cwd p p = false) ∧
    (∀ cwd r x : String, r.data ≠ [] → x.data ≠ [] → x.data ≠ ['.'] →
      (['.', '.'].isPrefixOf x.data) = false → ¬ '/' ∈ x.data →
      isPathWithinRoot cwd r (r ++ "/" ++ x) = true) ∧
    (∀ cwd root target, isPathWithinRoot cwd root target = true →
      ∃ S, S ≠ [] ∧ resolveComps cwd target = resolveComps cwd root ++ S) := by
  refine ⟨?_, ?_, ?_⟩
  · intro cwd p
    have h := relComps_append (resolveComps cwd p) []
    rw [List.append_nil] at h
    unfold isPathWithinRoot
    rw [h]
    rfl
  · intro cwd r x hr hx0 hx1 hxdd hxs
    have hx2 : x.data ≠ ['.', '.'] := by
      intro h
      rw [h] at hxdd
      simp [List.isPrefixOf] at hxdd
    unfold isPathWithinRoot
    rw [resolveComps_slash_append cwd r x hr hx0 hx1 hx2 hxs, relComps_append]
    rw [show joinSlashL [x.data] = x.data from rfl]
    show (!(x.data).isEmpty && !(['.', '.'].isPrefixOf x.data) &&
      !(['/'].isPrefixOf x.data)) = true
    rw [no_slash_no_sep_start hx0 hxs, hxdd]
    simp [List.isEmpty_iff, hx0]
  · intro cwd root target h
    unfold isPathWithinRoot at h
    simp only [Bool.and_eq_true, Bool.not_eq_true'] at h
    exact relComps_not_extension h.1.1 h.1.2

/-- Witness for C2 at concrete inputs: irreflexivity at `/w/.beans`, a plain
component below the root is accepted, and an accepted target strictly
extends the root. -/
theorem isPathWithinRoot_spec_witness :
    isPathWithinRoot "/" "/w/.beans" "/w/.beans" = false ∧
    isPathWithinRoot "/" "/w/.beans" ("/w/.beans" ++ "/" ++ "file.md") = true ∧
    (∃ S, S ≠ [] ∧ resolveComps "/" "/w/.beans/sub/f.md" =
      resolveComps "/" "/w/.beans" ++ S) :=
  ⟨isPathWithinRoot_spec.1 "/" "/w/.beans",
   isPathWithinRoot_spec.2.1 "/" "/w/.beans" "file.md" (by decide) (by decide)
     (by decide) (by decide) (by decide),
   isPathWithinRoot_spec.2.2 "/" "/w/.beans" "/w/.beans/sub/f.md" (by decide)⟩

/-- Counterexample to C2 as stated: `"..b"` is a non-empty suffix component
(no separator, not `"."` or `".."`), the path `/w/.beans/..b` resolves to
itself — strictly inside the root — yet `isPathWithinRoot` returns `false`,
because the code tests `rel.startsWith('..')` on the raw relative string. -/
theorem isPathWithinRoot_cex :
    ("..b" : String).data ≠ [] ∧ ¬ '/' ∈ ("..b" : String).data ∧
    ("..b" : String) ≠ "." ∧ ("..b" : String) ≠ ".." ∧
    ("/w/.beans" ++ "/" ++ "..b" : String) = "/w/.beans/..b" ∧
    resolveComps "/" "/w/.beans/..b" =
      resolveComps "/" "/w/.beans" ++ ["..b".data] ∧
    isPathWithinRoot "/" "/w/.beans" ("/w/.beans" ++ "/" ++ "..b") = false := by
  refine ⟨by decide, by decide, by decide, by decide, by decide, by decide, by decide⟩

/-- Claim C1: for every relative path argument, the backend strips leading
separators, trims, and resolves against the `.beans` sandbox root; whenever
the resolved path is not contained within that root, all four file
operations (`readBeanFile`, `editBeanFile`, `createBeanFile`,
`deleteBeanFile`) fail with the sandbox-violation error and leave the
file-system state — files, directories and the access log — untouched:
no read, no write, no directory creation happens. -/
theorem sandboxViolation_noFsAccess
    (cwd wr rel content : String) (ow : Option Bool) (st : FsState)
    (hclean : stripSlashes (jsTrimL rel.data) ≠ [])
    (hout : isPathWithinRoot cwd (getBeansRoot cwd wr)
      (joinComps (resolve2Comps cwd (getBeansRoot cwd wr)
        (String.mk (stripSlashes (jsTrimL rel.data))))) = false) :
    resolveBeanFilePath cwd wr rel =
      .error "Path must stay within .beans directory" ∧
    readBeanFile cwd wr st rel =
      (st, .error "Path must stay within .beans directory") ∧
    editBeanFile cwd wr st rel content =
      (st, .error "Path must stay within .beans directory") ∧
    createBeanFile cwd wr st rel content ow =
      (st, .error "Path must stay within .beans directory") ∧
    deleteBeanFile cwd wr st rel =
      (st, .error "Path must stay within .beans directory") := by
  have hres : resolveBeanFileComps cwd wr rel =
      .error "Path must stay within .beans directory" := by
    unfold resolveBeanFileComps
    rw [if_neg (by simp [List.isEmpty_iff, hclean]), if_neg (by simp [hout])]
  refine ⟨?_, ?_, ?_, ?_, ?_⟩
  · unfold resolveBeanFilePath
    rw [hres]
    rfl
  · unfold readBeanFile
    rw [hres]
  · unfold editBeanFile
    rw [hres]
  · unfold createBeanFile
    rw [hres]
  · unfold deleteBeanFile
    rw [hres]

/-- Witness for C1: Scenario E — `readBeanFile("../../etc/passwd")` (and the
other three operations) fail with the sandbox-violation error without
touching the file system. -/
theorem sandboxViolation_noFsAccess_witness :
    stripSlashes (jsTrimL ("../../etc/passwd" : String).data) ≠ [] ∧
    readBeanFile "/" "/w" ⟨[("/w/.beans/a.md", "x")], ["/w/.beans"], []⟩
        "../../etc/passwd" =
      (⟨[("/w/.beans/a.md", "x")], ["/w/.beans"], []⟩,
        .error "Path must stay within .beans directory") ∧
    editBeanFile "/" "/w" ⟨[("/w/.beans/a.md", "x")], ["/w/.beans"], []⟩
        "../../etc/passwd" "pwned" =
      (⟨[("/w/.beans/a.md", "x")], ["/w/.beans"], []⟩,
        .error "Path must stay within .beans directory") :=
  have h := sandboxViolation_noFsAccess "/" "/w" "../../etc/passwd" "pwned"
    none ⟨[("/w/.beans/a.md", "x")], ["/w/.beans"], []⟩ (by decide) (by decide)
  ⟨by decide, h.2.1, h.2.2.1⟩

/-- Claim C5: when the resolved sandbox target already exists,
`createBeanFile` without a truthy `overwrite` fails (exclusive-create `wx`)
and leaves every file's content unchanged, while `overwrite: true` succeeds
and replaces the content. -/
theorem createBeanFile_exclusive
    (cwd wr rel content : String) (st : FsState)
    (comps : List (List Char)) (c0 : String)
    (hres : resolveBeanFileComps cwd wr rel = .ok comps)
    (hex : st.files.lookup (joinComps comps) = some c0) :
    (∀ ow : Option Bool, ow ≠ some true →
      (createBeanFile cwd wr st rel content ow).2 =
        .error ("EEXIST: " ++ joinComps comps) ∧
      (createBeanFile cwd wr st rel content ow).1.files = st.files) ∧
    ((createBeanFile cwd wr st rel content (some true)).2 =
      .ok (joinComps comps, content.utf8ByteSize, true) ∧
     (createBeanFile cwd wr st rel content (some true)).1.files.lookup
        (joinComps comps) = some content) := by
  constructor
  · intro ow how
    have hbeq : (ow == some true) = false := beq_eq_false_iff_ne.mpr how
    unfold createBeanFile
    rw [hres]
    unfold writeFileFlag mkdirRecursive
    simp only [hbeq, Bool.not_false, Bool.true_and, hex, Option.isSome_some,
      if_pos]
    exact ⟨trivial, trivial⟩
  · unfold createBeanFile
    rw [hres]
    unfold writeFileFlag mkdirRecursive
    simp only [beq_self_eq_true, Bool.not_true, Bool.false_and,
      Bool.false_eq_true, if_neg, if_false]
    refine ⟨trivial, ?_⟩
    simp [List.lookup_cons]

/-- Witness for C5 at a concrete state: `note.md` exists with content
`"old"`; exclusive create fails and keeps `"old"`, overwrite replaces it
with `"new"`. -/
theorem createBeanFile_exclusive_witness :
    resolveBeanFileComps "/" "/w" "note.md" =
      .ok ["w".data, ".beans".data, "note.md".data] ∧
    (createBeanFile "/" "/w" ⟨[("/w/.beans/note.md", "old")], [], []⟩
        "note.md" "new" none).2 =
      .error ("EEXIST: " ++ joinComps ["w".data, ".beans".data, "note.md".data]) ∧
    (createBeanFile "/" "/w" ⟨[("/w/.beans/note.md", "old")], [], []⟩
        "note.md" "new" none).1.files = [("/w/.beans/note.md", "old")] ∧
    (createBeanFile "/" "/w" ⟨[("/w/.beans/note.md", "old")], [], []⟩
        "note.md" "new" (some true)).1.files.lookup
      (joinComps ["w".data, ".beans".data, "note.md".data]) = some "new" :=
  have h := createBeanFile_exclusive "/" "/w" "note.md" "new"
    ⟨[("/w/.beans/note.md", "old")], [], []⟩
    ["w".data, ".beans".data, "note.md".data] "old" (by rfl) (by decide)
  ⟨by rfl, (h.1 none (by decide)).1, (h.1 none (by decide)).2, h.2.2⟩

/-! ### Lemmas about `getSafeEnv` -/

theorem lookup_append_env (l1 l2 : List (String × String)) (k : String) :
    (l1 ++ l2).lookup k = (l1.lookup k).or (l2.lookup k) := by
  induction l1 with
  | nil => simp [List.lookup]
  | cons kv l1 ih =>
    cases kv with
    | mk k0 v0 =>
      by_cases hk : (k == k0) = true
      · simp [List.lookup, hk]
      · simp only [Bool.not_eq_true] at hk
        simp [List.lookup, hk, ih]

theorem lookup_filterMap_keyed_not_mem
    {f : String → Option (String × String)}
    (hf : ∀ k kv, f k = some kv → kv.1 = k) :
    ∀ (ws : List String) (k : String), k ∉ ws →
      (ws.filterMap f).lookup k = none := by
  intro ws
  induction ws with
  | nil => intro k _; rfl
  | cons w ws ih =>
    intro k hk
    simp only [List.mem_cons, not_or] at hk
    rw [List.filterMap_cons]
    cases hfw : f w with
    | none => exact ih k hk.2
    | some kv =>
      have : kv.1 = w := hf w kv hfw
      have hne : (k == kv.1) = false := beq_eq_false_iff_ne.mpr (this ▸ hk.1)
      cases kv with
      | mk k1 v1 => simp [List.lookup, hne, ih k hk.2]

theorem lookup_filterMap_keyed_mem
    {f : String → Option (String × String)}
    (hf : ∀ k kv, f k = some kv → kv.1 = k) :
    ∀ (ws : List String), ws.Nodup → ∀ (k : String), k ∈ ws →
      (ws.filterMap f).lookup k = (f k).map (fun kv => kv.2) := by
  intro ws
  induction ws with
  | nil => intro _ k hk; exact absurd hk (List.not_mem_nil k)
  | cons w ws ih =>
    intro hnd k hk
    rw [List.filterMap_cons]
    rcases List.mem_cons.mp hk with hkw | hkm
    · subst hkw
      cases hfw : f k with
      | none =>
        exact lookup_filterMap_keyed_not_mem hf ws k
          (List.nodup_cons.mp hnd).1
      | some kv =>
        have h1 : kv.1 = k := hf k kv hfw
        cases kv with
        | mk k1 v1 =>
          simp only at h1
          subst h1
          simp [List.lookup]
    · have hkw : k ≠ w := by
        intro h
        subst h
        exact (List.nodup_cons.mp hnd).1 hkm
      cases hfw : f w with
      | none => exact ih (List.nodup_cons.mp hnd).2 k hkm
      | some kv =>
        have h1 : kv.1 = w := hf w kv hfw
        have hne : (k == kv.1) = false := beq_eq_false_iff_ne.mpr (h1 ▸ hkw)
        cases kv with
        | mk k1 v1 => simp [List.lookup, hne, ih (List.nodup_cons.mp hnd).2 k hkm]

theorem lookup_filter_beansPrefixed (env : List (String × String)) (k : String) :
    (env.filter (fun kv => strStartsWith kv.1 "BEANS_")).lookup k =
      if strStartsWith k "BEANS_" = true then env.lookup k else none := by
  induction env with
  | nil => simp [List.lookup]
  | cons kv env ih =>
    cases kv with
    | mk k0 v0 =>
      simp only [List.filter_cons]
      by_cases hp : strStartsWith k0 "BEANS_" = true
      · simp only [hp, if_true]
        by_cases hk : (k == k0) = true
        · have hkk : k = k0 := eq_of_beq hk
          subst hkk
          simp [List.lookup, hp]
        · simp only [List.lookup, hk]
          exact ih
      · simp only [hp, Bool.false_eq_true, if_false]
        rw [ih]
        by_cases hkp : strStartsWith k "BEANS_" = true
        · rw [if_pos hkp, if_pos hkp]
          have hk : (k == k0) = false := by
            apply beq_eq_false_iff_ne.mpr
            intro h
            subst h
            exact hp hkp
          simp [List.lookup, hk]
        · rw [if_neg hkp, if_neg hkp]

/-- Claim C6 (amended): the restricted environment contains exactly the
inherited allow-listed variables whose values are non-empty (the truthiness
check drops an allow-listed variable bound to the empty string — see the
counterexample) plus every inherited `BEANS_`-prefixed variable; every other
inherited variable is absent.  Consequently two process environments that
agree on the allow-listed and `BEANS_`-prefixed variables yield the same
child environment. -/
theorem getSafeEnv_spec :
    (∀ (env : List (String × String)) (k : String),
      (getSafeEnv env).lookup k =
        if k ∈ envWhitelist then
          match env.lookup k with
          | some v => if v = "" then none else some v
          | none => none
        else if strStartsWith k "BEANS_" = true then env.lookup k else none) ∧
    (∀ env1 env2 : List (String × String),
      (∀ k, k ∈ envWhitelist ∨ strStartsWith k "BEANS_" = true →
        env1.lookup k = env2.lookup k) →
      ∀ k, (getSafeEnv env1).lookup k = (getSafeEnv env2).lookup k) := by
  have hchar : ∀ (env : List (String × String)) (k : String),
      (getSafeEnv env).lookup k =
        if k ∈ envWhitelist then
          match env.lookup k with
          | some v => if v = "" then none else some v
          | none => none
        else if strStartsWith k "BEANS_" = true then env.lookup k else none := by
    intro env k
    have hf : ∀ k kv,
        (match env.lookup k with
          | some v => if v = "" then none else some (k, v)
          | none => none) = some kv → kv.1 = k := by
      intro k kv h
      cases hl : env.lookup k with
      | none => rw [hl] at h; exact absurd h (by simp)
      | some v =>
        rw [hl] at h
        dsimp only at h
        by_cases hv : v = ""
        · rw [if_pos hv] at h; exact absurd h (by simp)
        · rw [if_neg hv] at h
          have h2 : (k, v) = kv := Option.some.inj h
          rw [← h2]
    unfold getSafeEnv
    rw [lookup_append_env, lookup_filter_beansPrefixed]
    by_cases hw : k ∈ envWhitelist
    · have hnb : strStartsWith k "BEANS_" = false := by
        have hw2 : k = "PATH" ∨ k = "HOME" ∨ k = "USER" ∨ k = "LANG" ∨
            k = "LC_ALL" ∨ k = "LC_CTYPE" ∨ k = "SHELL" := by
          simpa [envWhitelist] using hw
        rcases hw2 with h | h | h | h | h | h | h <;> subst h <;> decide
      rw [lookup_filterMap_keyed_mem hf envWhitelist (by decide) k hw,
        if_pos hw, hnb]
      cases hl : env.lookup k with
      | none => simp
      | some v =>
        by_cases hv : v = ""
        · simp [hv]
        · simp [hv]
    · rw [lookup_filterMap_keyed_not_mem hf envWhitelist k hw, if_neg hw,
        Option.none_or]
  refine ⟨hchar, ?_⟩
  intro env1 env2 hagree k
  rw [hchar, hchar]
  by_cases hw : k ∈ envWhitelist
  · rw [hagree k (Or.inl hw)]
  · by_cases hb : strStartsWith k "BEANS_" = true
    · rw [if_neg hw, if_neg hw, if_pos hb, if_pos hb, hagree k (Or.inr hb)]
    · rw [if_neg hw, if_neg hw, if_neg hb, if_neg hb]

/-- Witness for C6: a concrete environment — the secret is stripped, `PATH`
and the `BEANS_` variable pass through, and a second environment differing
only in the secret yields the same child environment at every key. -/
theorem getSafeEnv_spec_witness :
    (getSafeEnv [("PATH", "/bin"), ("SECRET", "x"), ("BEANS_A", "1")]).lookup
        "SECRET" =
      (if "SECRET" ∈ envWhitelist then
        match [("PATH", "/bin"), ("SECRET", "x"), ("BEANS_A", "1")].lookup
            "SECRET" with
        | some v => if v = "" then none else some v
        | none => none
      else if strStartsWith "SECRET" "BEANS_" = true then
        [("PATH", "/bin"), ("SECRET", "x"), ("BEANS_A", "1")].lookup "SECRET"
      else none) ∧
    (∀ k, k ∈ envWhitelist ∨ strStartsWith k "BEANS_" = true →
      List.lookup k [("PATH", "/bin"), ("SECRET", "x"), ("BEANS_A", "1")] =
        List.lookup k [("PATH", "/bin"), ("SECRET", "y"), ("BEANS_A", "1")]) ∧
    (getSafeEnv [("PATH", "/bin"), ("SECRET", "x"), ("BEANS_A", "1")]).lookup
        "BEANS_A" =
      (getSafeEnv [("PATH", "/bin"), ("SECRET", "y"), ("BEANS_A", "1")]).lookup
        "BEANS_A" := by
  have hag : ∀ k, k ∈ envWhitelist ∨ strStartsWith k "BEANS_" = true →
      List.lookup k [("PATH", "/bin"), ("SECRET", "x"), ("BEANS_A", "1")] =
        List.lookup k [("PATH", "/bin"), ("SECRET", "y"), ("BEANS_A", "1")] := by
    intro k hk
    rcases hk with hk | hk
    · have hk2 : k = "PATH" ∨ k = "HOME" ∨ k = "USER" ∨ k = "LANG" ∨
          k = "LC_ALL" ∨ k = "LC_CTYPE" ∨ k = "SHELL" := by
        simpa [envWhitelist] using hk
      rcases hk2 with h | h | h | h | h | h | h <;> subst h <;> decide
    · have : (k == "SECRET") = false := by
        rcases hbeq : k == "SECRET" with _ | _
        · rfl
        · exfalso
          have : k = "SECRET" := eq_of_beq hbeq
          subst this
          exact absurd hk (by decide)
      simp [List.lookup, this]
  exact ⟨getSafeEnv_spec.1 [("PATH", "/bin"), ("SECRET", "x"), ("BEANS_A", "1")]
      "SECRET",
    hag,
    getSafeEnv_spec.2 [("PATH", "/bin"), ("SECRET", "x"), ("BEANS_A", "1")]
      [("PATH", "/bin"), ("SECRET", "y"), ("BEANS_A", "1")] hag "BEANS_A"⟩

/-- Counterexample to C6 as stated: `PATH` is inherited and allow-listed,
yet with the empty-string value it is absent from the child environment —
the code's JS truthiness test (`if (process.env[key])`) drops allow-listed
variables bound to `""`, so the child does not contain *exactly* the
allow-listed inherited variables. -/
theorem getSafeEnv_cex :
    "PATH" ∈ envWhitelist ∧
    List.lookup "PATH" [("PATH", "")] = some "" ∧
    (getSafeEnv [("PATH", "")]).lookup "PATH" = none := by
  refine ⟨by decide, by decide, by decide⟩

/-! ### Lemmas about the `readOutputLog` ring buffer -/

theorem ringFold_filter (N : Nat) (lines : List String) :
    ∀ buf, lines.foldl (ringStep N) buf =
      (lines.filter (fun l => !(l == ""))).foldl (ringStep N) buf := by
  induction lines with
  | nil => intro _; rfl
  | cons l ls ih =>
    intro buf
    by_cases hl : l = ""
    · subst hl
      rw [List.foldl_cons, List.filter_cons_of_neg (by simp),
        show ringStep N buf "" = buf from by simp [ringStep]]
      exact ih buf
    · rw [List.foldl_cons, List.filter_cons_of_pos (by simp [hl]),
        List.foldl_cons]
      exact ih (ringStep N buf l)

theorem ringFold_drop (N : Nat) (lines : List String) :
    ∀ buf, (∀ l ∈ lines, l ≠ "") → buf.length ≤ N →
      lines.foldl (ringStep N) buf =
        (buf ++ lines).drop ((buf ++ lines).length - N) := by
  induction lines with
  | nil =>
    intro buf _ hb
    simp [Nat.sub_eq_zero_of_le hb]
  | cons l ls ih =>
    intro buf hne hb
    have hl : l ≠ "" := hne l (List.mem_cons_self l ls)
    rw [List.foldl_cons]
    have hstep : ringStep N buf l =
        if N < buf.length + 1 then (buf ++ [l]).drop 1 else buf ++ [l] := by
      simp [ringStep, hl]
    have hne' : ∀ x ∈ ls, x ≠ "" := fun x hx => hne x (List.mem_cons_of_mem l hx)
    by_cases hc : N < buf.length + 1
    · have hbN : buf.length = N := Nat.le_antisymm hb (by omega)
      rw [hstep, if_pos hc]
      rw [ih _ hne' (by rw [List.length_drop]; simp; omega)]
      have h1 : ((buf ++ [l]).drop 1) ++ ls = ((buf ++ [l]) ++ ls).drop 1 :=
        (List.drop_append_of_le_length (by simp)).symm
      rw [h1, List.drop_drop]
      have h2 : (buf ++ [l]) ++ ls = buf ++ l :: ls := by simp
      rw [h2]
      congr 1
      simp only [List.length_drop, List.length_append, List.length_cons,
        List.length_singleton]
      omega
    · rw [hstep, if_neg hc]
      rw [ih _ hne' (by simp; omega)]
      congr 1 <;> simp

theorem ringLines_eq (lines : List String) (N : Nat) :
    ringLines lines N =
      (lines.filter (fun l => !(l == ""))).drop
        ((lines.filter (fun l => !(l == ""))).length - N) := by
  unfold ringLines
  rw [ringFold_filter]
  have hne : ∀ l ∈ lines.filter (fun l => !(l == "")), l ≠ "" := by
    intro l hl
    have := (List.mem_filter.mp hl).2
    simpa using this
  simpa using ringFold_drop N _ [] hne (Nat.zero_le N)

/-- Claim C10: `readOutputLog` never returns an empty line — every empty
line is skipped before entering the ring buffer, so the ring buffer equals
the last `maxLines` *non-empty* lines, `linesReturned` counts only non-empty
lines (and can be smaller than the number of physical lines), and the
content joins exactly those lines. -/
theorem readOutputLog_skipsEmpty (lines : List String) (opt : Option Int) :
    ringLines lines (effectiveMaxLines opt) =
      (lines.filter (fun l => !(l == ""))).drop
        ((lines.filter (fun l => !(l == ""))).length - effectiveMaxLines opt) ∧
    (ringLines lines (effectiveMaxLines opt)).all (fun l => !(l == "")) = true ∧
    (readOutputLog lines opt).linesReturned =
      min (effectiveMaxLines opt) (lines.filter (fun l => !(l == ""))).length ∧
    (readOutputLog lines opt).content =
      String.intercalate "\n" (ringLines lines (effectiveMaxLines opt)) := by
  refine ⟨ringLines_eq lines (effectiveMaxLines opt), ?_, ?_, rfl⟩
  · rw [List.all_eq_true]
    intro x hx
    rw [ringLines_eq] at hx
    exact (List.mem_filter.mp (List.mem_of_mem_drop hx)).2
  · show (ringLines lines (effectiveMaxLines opt)).length = _
    rw [ringLines_eq, List.length_drop]
    omega

/-- Claim C4 (amended): for a log whose physical lines are all non-empty —
empty lines are dropped by the code, see the counterexample — and a positive
`maxLines` value `n`, `readOutputLog` returns exactly the last
`min(n, k)` lines in original order, and `linesReturned` equals that
count. -/
theorem readOutputLog_lastN (lines : List String) (n : Int)
    (hn : 0 < n) (hne : ∀ l ∈ lines, l ≠ "") :
    ringLines lines (effectiveMaxLines (some n)) =
      lines.drop (lines.length - n.toNat) ∧
    (readOutputLog lines (some n)).linesReturned = min n.toNat lines.length ∧
    (readOutputLog lines (some n)).content =
      String.intercalate "\n" (lines.drop (lines.length - n.toNat)) := by
  have hmax : effectiveMaxLines (some n) = n.toNat := by
    simp [effectiveMaxLines, hn]
  have hfil : lines.filter (fun l => !(l == "")) = lines :=
    List.filter_eq_self.mpr (fun a ha => by simpa using hne a ha)
  have h1 : ringLines lines (effectiveMaxLines (some n)) =
      lines.drop (lines.length - n.toNat) := by
    rw [ringLines_eq, hfil, hmax]
  refine ⟨h1, ?_, ?_⟩
  · show (ringLines lines (effectiveMaxLines (some n))).length = _
    rw [h1, List.length_drop]
    omega
  · show String.intercalate "\n" (ringLines lines (effectiveMaxLines (some n))) = _
    rw [h1]

/-- Witness for C4: Scenario B — a five-line log read with `maxLines = 2`
returns exactly the last two lines in original order with
`linesReturned = 2`. -/
theorem readOutputLog_lastN_witness :
    (0 : Int) < 2 ∧ (∀ l ∈ ["l1", "l2", "l3", "l4", "l5"], l ≠ "") ∧
    ringLines ["l1", "l2", "l3", "l4", "l5"] (effectiveMaxLines (some 2)) =
      ["l4", "l5"] ∧
    (readOutputLog ["l1", "l2", "l3", "l4", "l5"] (some 2)).linesReturned = 2 ∧
    (readOutputLog ["l1", "l2", "l3", "l4", "l5"] (some 2)).content =
      "l4\nl5" := by
  have h := readOutputLog_lastN ["l1", "l2", "l3", "l4", "l5"] 2 (by decide)
    (by decide)
  exact ⟨by decide, by decide, by rw [h.1]; decide, by rw [h.2.1]; decide,
    by rw [h.2.2]; decide⟩

/-- Counterexample to C4 as stated: a log file whose physical lines are
`"a"`, `"b"`, `""` (content `"a\nb\n\n"`), read with `maxLines = 2`.  The
last `min(3, 2) = 2` physical lines are `["b", ""]`, but the code skips the
empty line and returns `["a", "b"]`. -/
theorem readOutputLog_lastN_cex :
    ringLines ["a", "b", ""] (effectiveMaxLines (some 2)) = ["a", "b"] ∧
    (["a", "b", ""] : List String).drop (3 - 2) = ["b", ""] ∧
    ringLines ["a", "b", ""] (effectiveMaxLines (some 2)) ≠
      (["a", "b", ""] : List String).drop (3 - 2) ∧
    (readOutputLog ["a", "b", ""] (some 2)).content = "a\nb" := by
  refine ⟨by decide, by decide, by decide, by decide⟩

/-- Claim C3: for the bean the delete handler finds in the list snapshot,
the refusal error is thrown exactly when `force` is false and the status is
neither `draft` nor `scrapped`; in every other case the handler returns the
backend's acknowledgment `{ deleted: true, beanId }`. -/
theorem deleteHandler_spec (beans : List Bean) (beanId : String) (force : Bool)
    (b : Bean) (hfind : beans.find? (fun x => x.id == beanId) = some b) :
    (deleteHandler beans beanId force = .error deleteRefusalMsg ↔
      force = false ∧ b.status ≠ "draft" ∧ b.status ≠ "scrapped") ∧
    (force = true ∨ b.status = "draft" ∨ b.status = "scrapped" →
      deleteHandler beans beanId force =
        .ok { deleted := true, beanId := beanId }) := by
  unfold deleteHandler getBeanById
  rw [hfind]
  dsimp only
  by_cases hd : b.status = "draft"
  · simp [hd]
  · by_cases hs : b.status = "scrapped"
    · simp [hs]
    · cases force with
      | false => simp [hd, hs]
      | true => simp [hd, hs]

/-- Witness for C3: a `todo` bean is refused without `force` and deleted
with `force`; a `draft` bean is deleted without `force`. -/
theorem deleteHandler_spec_witness :
    deleteHandler [beanTodo] "b1" false = .error deleteRefusalMsg ∧
    deleteHandler [beanTodo] "b1" true =
      .ok { deleted := true, beanId := "b1" } ∧
    deleteHandler [beanDraft] "b2" false =
      .ok { deleted := true, beanId := "b2" } :=
  have h1 := deleteHandler_spec [beanTodo] "b1" false beanTodo (by decide)
  have h2 := deleteHandler_spec [beanTodo] "b1" true beanTodo (by decide)
  have h3 := deleteHandler_spec [beanDraft] "b2" false beanDraft (by decide)
  ⟨h1.1.mpr ⟨rfl, by decide, by decide⟩,
   h2.2 (Or.inl rfl),
   h3.2 (Or.inr (Or.inl (by decide)))⟩

/-- Claim C7: `resolveWorkspaceFromRoots` returns the local path of the
first declared root expressed as a `file://` URI, and returns `null` — not a
failure — when the round trip throws (capability unsupported), when no roots
are declared, or when none is a `file://` URI. -/
theorem resolveWorkspaceFromRoots_spec :
    (∀ e, resolveWorkspaceFromRoots (.error e) = none) ∧
    (resolveWorkspaceFromRoots (.ok []) = none) ∧
    (∀ roots, (∀ u ∈ roots, strStartsWith u "file://" = false) →
      resolveWorkspaceFromRoots (.ok roots) = none) ∧
    (∀ roots uri,
      roots.find? (fun u => strStartsWith u "file://") = some uri →
      resolveWorkspaceFromRoots (.ok roots) = some (urlPathname uri)) := by
  refine ⟨fun _ => rfl, rfl, ?_, ?_⟩
  · intro roots hroots
    unfold resolveWorkspaceFromRoots
    dsimp only
    rw [List.find?_eq_none.mpr (fun u hu => by simp [hroots u hu])]
  · intro roots uri hfind
    unfold resolveWorkspaceFromRoots
    dsimp only
    rw [hfind]

/-- Witness for C7: Scenario D — roots `["/a", "/b"]` (as `file://` URIs)
resolve to `/a`; an empty declaration and a failing round trip both resolve
to `null`. -/
theorem resolveWorkspaceFromRoots_spec_witness :
    resolveWorkspaceFromRoots (.ok ["file:///a", "file:///b"]) = some "/a" ∧
    resolveWorkspaceFromRoots (.ok []) = none ∧
    resolveWorkspaceFromRoots (.error ()) = none ∧
    resolveWorkspaceFromRoots (.ok ["weird://x"]) = none :=
  have h := resolveWorkspaceFromRoots_spec
  ⟨by rw [h.2.2.2 ["file:///a", "file:///b"] "file:///a" (by decide)]; decide,
   h.2.1,
   h.1 (),
   h.2.2.1 ["weird://x"] (by decide)⟩

/-- Claim C8: in the mutation input built by `update`, a supplied `parent`
value always wins — it is carried into the input and `clearParent` has no
effect on any field — while `clearParent` only takes effect (as the
parent-clearing empty string) when no `parent` value is supplied. -/
theorem update_parent_wins :
    (∀ (u : UpdateArgs) (p : String), u.parent = some p →
      (buildUpdateInput u).parent = some p ∧
      ∀ c, buildUpdateInput { u with clearParent := c } = buildUpdateInput u) ∧
    (∀ u : UpdateArgs, u.parent = none →
      (buildUpdateInput u).parent =
        (if u.clearParent == some true then some "" else none)) := by
  constructor
  · intro u p hp
    constructor
    · unfold buildUpdateInput
      rw [hp]
    · intro c
      unfold buildUpdateInput
      rw [show ({ u with clearParent := c } : UpdateArgs).parent = u.parent
        from rfl, hp]
  · intro u hp
    unfold buildUpdateInput
    rw [hp]

/-- Witness for C8: with both `parent := "x"` and `clearParent := true`
supplied, the input carries `parent = "x"` and equals the input built
without `clearParent`; with only `clearParent := true`, the input carries
the clearing empty string. -/
theorem update_parent_wins_witness :
    (buildUpdateInput { parent := some "x", clearParent := some true }).parent =
      some "x" ∧
    buildUpdateInput { parent := some "x", clearParent := some true } =
      buildUpdateInput { parent := some "x" } ∧
    (buildUpdateInput { clearParent := some true }).parent = some "" :=
  have h1 := (update_parent_wins.1
    { parent := some "x", clearParent := some true } "x" rfl)
  have h2 := update_parent_wins.2 { clearParent := some true } rfl
  ⟨h1.1, by
    have := (update_parent_wins.1 { parent := some "x" } "x" rfl).2 (some true)
    exact this, by rw [h2]; rfl⟩

/-! ### Stability of `sortBeans` -/

theorem sortByKey_pair {K : Type} [LinearOrder K] (k : Bean → K) {a b : Bean}
    {l : List Bean} (hk : k a = k b) (hab : [a, b].Sublist l) :
    [a, b].Sublist (sortByKey k l) := by
  apply List.pair_sublist_mergeSort
  · intro x y z hxy hyz
    exact decide_eq_true (le_trans (of_decide_eq_true hxy) (of_decide_eq_true hyz))
  · intro x y
    rcases le_total (k x) (k y) with h | h
    · simp [h]
    · simp [h]
  · exact decide_eq_true (le_of_eq hk)
  · exact hab

/-- Claim C9: `sortBeans` is a stable sort — for every mode and every input
list, two records that compare equal under every tie-break key of that mode
keep their input order in the output. -/
theorem sortBeans_stable (mode : SortMode) (l : List Bean) (a b : Bean)
    (ht : tieEq mode a b) (hab : [a, b].Sublist l) :
    [a, b].Sublist (sortBeans l mode) := by
  cases mode with
  | statusPriorityTypeTitle =>
    obtain ⟨h1, h2, h3, h4⟩ := ht
    exact sortByKey_pair statusModeKey
      (by unfold statusModeKey; rw [h1, h2, h3, h4]) hab
  | updated => exact sortByKey_pair (fun x => timestampKey x.updatedAt) ht hab
  | created => exact sortByKey_pair (fun x => timestampKey x.createdAt) ht hab
  | id => exact sortByKey_pair (fun x => x.id) ht hab

/-- Witness for C9: two tie-equal records (same status, priority, type and
title, different ids) keep their order when the two-element list is
sorted under the `status-priority-type-title` mode. -/
theorem sortBeans_stable_witness :
    [beanSameA, beanSameB].Sublist
      (sortBeans [beanSameA, beanSameB] SortMode.statusPriorityTypeTitle) :=
  sortBeans_stable SortMode.statusPriorityTypeTitle [beanSameA, beanSameB]
    beanSameA beanSameB ⟨rfl, rfl, rfl, rfl⟩ (List.Sublist.refl _)

end Beans
